import Mathlib

/-!
Verification development for the Netpus network-usage attribution and
persistence engine.

The definitions below are a shallow embedding of the Go source:

- internal/monitor/monitor_windows.go : the Windows counter source and the
  weighted-proportional attribution (getNetworkProcesses and friends).
- internal/monitor (monitor.go)       : the sampling loop body (collect),
  the inactivity sweep (cleanupInactive), the write batcher (flushBatch,
  SetSaveEnabled) and the stat store (GetStats).
- internal/database/db.go             : the durable-store operations the
  claims touch (InsertUsageRecord retry loop, UpdateDailySummary,
  GetDailySummary, record counting).

Modelling conventions:
- Go float64 arithmetic on the weights (10, 1, 0.5 and their sums,
  quotients and products) is modelled exactly over the rationals; the Go
  conversion int64(f) on a nonnegative float is modelled by goTrunc,
  truncation toward zero.
- Go machine integers are modelled by Int (no claim here depends on
  64-bit wraparound) and unsigned counters by Nat.
- Go maps with zero-value defaults are modelled by total functions
  (weights default to 0, names default to the empty string); maps whose
  absence matters are modelled by Option-valued functions.
- Go map iteration order is unspecified, so the pid iteration of the
  apportionment loop takes the iteration order as an explicit list
  parameter (pids).
- Wall-clock instants are modelled as rational seconds; the zero value of
  time.Time is modelled by the rational 0.
-/

namespace Netpus

/-! ## Counter source (monitor_windows.go) -/

/-- One row of the Windows extended TCP table: connection state code and
owning process id (tcpRow in monitor_windows.go; the address fields do not
influence attribution and are omitted). -/
structure TcpRow where
  state : ℕ
  owningPid : ℕ
deriving DecidableEq

/-- One row of the Windows extended UDP table (udpRow in
monitor_windows.go; only the owning pid matters for attribution). -/
structure UdpRow where
  owningPid : ℕ
deriving DecidableEq

/-- One interface row of GetIfTable2 (mibIfRow2): cumulative received and
transmitted octet counters since boot. -/
structure MibIfRow2 where
  inOctets : ℕ
  outOctets : ℕ
deriving DecidableEq

/-- Per-process attribution result (processData in monitor_windows.go). -/
structure ProcessData where
  processID : ℤ
  uploadBytes : ℤ
  downloadBytes : ℤ
deriving DecidableEq

/-- Model of getSystemNetworkIO: sums OutOctets into upload and InOctets
into download over all interface rows.  The source accumulates into int64
after converting each uint64 counter; realistic counter magnitudes fit, so
the conversion is modelled as the exact embedding of Nat into Int. -/
def getSystemNetworkTotals (rows : List MibIfRow2) : ℤ × ℤ :=
  rows.foldl (fun acc r => (acc.1 + (r.outOctets : ℤ), acc.2 + (r.inOctets : ℤ))) (0, 0)

/-- Go conversion int64(f) for a float64 value truncates toward zero. -/
def goTrunc (q : ℚ) : ℤ :=
  if 0 ≤ q then ⌊q⌋ else -⌊-q⌋

/-- The accumulator built by the two connection loops of
getNetworkProcesses: processWeights, processNames and totalWeight.
Weights default to 0 and names to the empty string, exactly the Go map
zero values. -/
structure WeightAcc where
  weights : ℕ → ℚ
  names : ℕ → String
  total : ℚ

/-- Loop body of the TCP pass of getNetworkProcesses: state code 5
(ESTABLISHED) weighs 10, any other TCP state weighs 1; the weight is added
to the owning pid and to the running total, and the pid name is resolved
once, only recorded when resolution yields a nonempty string. -/
def tcpStep (resolve : ℕ → String) (acc : WeightAcc) (conn : TcpRow) : WeightAcc :=
  let weight : ℚ := if conn.state = 5 then 10 else 1
  { weights := fun p => if p = conn.owningPid then acc.weights p + weight else acc.weights p
    total := acc.total + weight
    names :=
      if acc.names conn.owningPid = "" then
        if resolve conn.owningPid ≠ "" then
          fun p => if p = conn.owningPid then resolve conn.owningPid else acc.names p
        else acc.names
      else acc.names }

/-- Loop body of the UDP pass of getNetworkProcesses: every UDP endpoint
weighs 0.5. -/
def udpStep (resolve : ℕ → String) (acc : WeightAcc) (conn : UdpRow) : WeightAcc :=
  let weight : ℚ := 1 / 2
  { weights := fun p => if p = conn.owningPid then acc.weights p + weight else acc.weights p
    total := acc.total + weight
    names :=
      if acc.names conn.owningPid = "" then
        if resolve conn.owningPid ≠ "" then
          fun p => if p = conn.owningPid then resolve conn.owningPid else acc.names p
        else acc.names
      else acc.names }

/-- The two connection loops of getNetworkProcesses, TCP first then UDP,
starting from empty maps and zero total weight. -/
def computeWeights (resolve : ℕ → String) (tcp : List TcpRow) (udp : List UdpRow) : WeightAcc :=
  udp.foldl (udpStep resolve) (tcp.foldl (tcpStep resolve) ⟨fun _ => 0, fun _ => "", 0⟩)

/-- One pid share of the distribution loop:
int64(float64(totalBytes) * (weight / totalWeight)). -/
def pidShare (totalBytes : ℤ) (weight totalWeight : ℚ) : ℤ :=
  goTrunc ((totalBytes : ℚ) * (weight / totalWeight))

/-- One iteration of the distribution loop of getNetworkProcesses: a pid
whose recorded name is empty (unresolvable) is skipped with continue,
otherwise the result map entry for its name is written with its
proportional shares. -/
def buildStep (acc : WeightAcc) (up down : ℤ) (res : String → Option ProcessData)
    (pid : ℕ) : String → Option ProcessData :=
  if acc.names pid = "" then res
  else fun name =>
    if name = acc.names pid then
      some ⟨(pid : ℤ), pidShare up (acc.weights pid) acc.total,
            pidShare down (acc.weights pid) acc.total⟩
    else res name

/-- The distribution loop of getNetworkProcesses over the pid iteration
order, starting from an empty result map (a later pid with the same name
overwrites an earlier one, as in a Go map). -/
def buildResult (acc : WeightAcc) (up down : ℤ) (pids : List ℕ) :
    String → Option ProcessData :=
  pids.foldl (buildStep acc up down) (fun _ => none)

/-- Model of getNetworkProcesses: reads the cumulative interface totals,
builds the weight and name maps from the TCP and UDP tables, and, when the
total weight is positive, distributes the totals proportionally; with zero
total weight the result map stays empty.  The function is total: an
unresolvable pid is skipped, never an error (errors in the source come
only from the OS table queries, which are outside this model). -/
def getNetworkProcesses (rows : List MibIfRow2) (tcp : List TcpRow) (udp : List UdpRow)
    (resolve : ℕ → String) (pids : List ℕ) : String → Option ProcessData :=
  let up := (getSystemNetworkTotals rows).1
  let down := (getSystemNetworkTotals rows).2
  let acc := computeWeights resolve tcp udp
  if 0 < acc.total then buildResult acc up down pids else fun _ => none

/-- Number of TCP connections of a pid in the established state (code 5). -/
def countTcpEst (tcp : List TcpRow) (pid : ℕ) : ℕ :=
  (tcp.filter fun c => c.owningPid == pid && c.state == 5).length

/-- Number of TCP connections of a pid in any non-established state. -/
def countTcpOther (tcp : List TcpRow) (pid : ℕ) : ℕ :=
  (tcp.filter fun c => c.owningPid == pid && !(c.state == 5)).length

/-- Number of UDP endpoints of a pid. -/
def countUdp (udp : List UdpRow) (pid : ℕ) : ℕ :=
  (udp.filter fun c => c.owningPid == pid).length

/-! ## Attribution sampler state (monitor.go) -/

/-- NetworkStat from monitor.go: the per-process in-memory metrics.
lastUpdate is in rational seconds, 0 standing for the zero time.Time. -/
structure NetworkStat where
  appName : String
  processID : ℤ
  uploadSpeed : ℤ
  downloadSpeed : ℤ
  totalUpload : ℤ
  totalDownload : ℤ
  lastUpdate : ℚ
deriving DecidableEq

/-- The in-memory stats map of the Monitor, keyed by app name. -/
def StatsMap : Type := String → Option NetworkStat

/-- The per-app-name body of the update loop of Monitor.collect: zero
deltas on both directions leave the map untouched (the continue branch);
otherwise the entry is fetched or created, the elapsed time since its last
update is computed (1 second when unset or non-positive), speeds are
derived by division, totals are incremented and lastUpdate is stamped. -/
def updateStat (now : ℚ) (appName : String) (data : ProcessData)
    (old : Option NetworkStat) : Option NetworkStat :=
  let uploadDelta := data.uploadBytes
  let downloadDelta := data.downloadBytes
  if uploadDelta = 0 ∧ downloadDelta = 0 then old
  else
    let stat := old.getD
      { appName := appName, processID := data.processID, uploadSpeed := 0,
        downloadSpeed := 0, totalUpload := 0, totalDownload := 0, lastUpdate := 0 }
    let timeDelta : ℚ :=
      if stat.lastUpdate = 0 then 1
      else if now - stat.lastUpdate ≤ 0 then 1 else now - stat.lastUpdate
    some { stat with
      uploadSpeed := goTrunc ((uploadDelta : ℚ) / timeDelta)
      downloadSpeed := goTrunc ((downloadDelta : ℚ) / timeDelta)
      totalUpload := stat.totalUpload + uploadDelta
      totalDownload := stat.totalDownload + downloadDelta
      lastUpdate := now }

/-- The in-memory effect of one Monitor.collect pass on the stats map,
per key: a name present in the attribution map goes through updateStat;
a name absent from it keeps its entry but has both instantaneous speeds
reset to 0 (the second loop of collect). -/
def collectStats (processes : String → Option ProcessData) (now : ℚ)
    (stats : StatsMap) : StatsMap :=
  fun name =>
    match processes name with
    | some data => updateStat now name data (stats name)
    | none => (stats name).map fun s => { s with uploadSpeed := 0, downloadSpeed := 0 }

/-- CLEANUP_THRESHOLD from monitor.go: 3 seconds. -/
def CLEANUP_THRESHOLD : ℚ := 3

/-- Monitor.cleanupInactive: delete every entry whose lastUpdate is more
than CLEANUP_THRESHOLD seconds before now. -/
def cleanupInactive (now : ℚ) (stats : StatsMap) : StatsMap :=
  fun name =>
    match stats name with
    | some stat => if now - stat.lastUpdate > CLEANUP_THRESHOLD then none else some stat
    | none => none

/-- Monitor.GetStats returns a value copy of every entry; the copied map
has exactly the same contents, so it is modelled as the map itself. -/
def GetStats (stats : StatsMap) : StatsMap := stats

/-- Everything the monitor loop body reads from the platform layer on one
tick, with the pid iteration order made explicit. -/
structure TickInput where
  rows : List MibIfRow2
  tcp : List TcpRow
  udp : List UdpRow
  resolve : ℕ → String
  pids : List ℕ
  now : ℚ

/-- The in-memory part of Monitor.collect for one tick: attribution from
the platform snapshot followed by the stats-map update. -/
def collectStep (t : TickInput) (stats : StatsMap) : StatsMap :=
  collectStats (getNetworkProcesses t.rows t.tcp t.udp t.resolve t.pids) t.now stats

/-- One iteration of the monitor loop while not paused: collect, then the
inactivity sweep. -/
def tickStep (t : TickInput) (stats : StatsMap) : StatsMap :=
  cleanupInactive t.now (collectStep t stats)

/-- A sequence of monitor loop iterations. -/
def runTicks (ts : List TickInput) (stats : StatsMap) : StatsMap :=
  ts.foldl (fun s t => tickStep t s) stats

/-! ## Durable store (db.go) and write batcher (monitor.go) -/

/-- UsageRecord from db.go (the autoincrement id column is not modelled;
no claim mentions it). -/
structure UsageRecord where
  appName : String
  processID : ℤ
  uploadBytes : ℤ
  downloadBytes : ℤ
  timestamp : ℤ
  isTemporary : Bool
  expiresAt : ℤ
deriving DecidableEq

/-- AppMetadata from db.go. -/
structure AppMetadata where
  appName : String
  executablePath : String
  firstSeen : ℤ
  lastSeen : ℤ
deriving DecidableEq

/-- DailySummary from db.go, as returned by queries (the autoincrement id
column is not modelled; no claim mentions it). -/
structure DailySummary where
  date : String
  totalUpload : ℤ
  totalDownload : ℤ
deriving DecidableEq

/-- The daily_summaries table: date is its unique key, a row holds the
cumulative upload and download totals for that date. -/
def SummaryTable : Type := String → Option (ℤ × ℤ)

/-- DB.UpdateDailySummary: INSERT a (date, upload, download) row, and ON
CONFLICT on the unique date key add the new totals onto the stored ones. -/
def UpdateDailySummary (t : SummaryTable) (date : String) (upload download : ℤ) :
    SummaryTable :=
  fun d =>
    if d = date then
      match t date with
      | some row => some (row.1 + upload, row.2 + download)
      | none => some (upload, download)
    else t d

/-- DB.GetDailySummary: a missing row (sql.ErrNoRows) is absorbed into a
zero-valued summary for the requested date with a nil error; a present row
is returned as is.  Engine-level scan failures are outside this model, so
the error side of the Except never occurs here. -/
def GetDailySummary (t : SummaryTable) (date : String) : Except String DailySummary :=
  match t date with
  | none => Except.ok { date := date, totalUpload := 0, totalDownload := 0 }
  | some row => Except.ok { date := date, totalUpload := row.1, totalDownload := row.2 }

/-- The durable tables the flush path writes. -/
structure DBState where
  usageRecords : List UsageRecord
  dailySummaries : SummaryTable
  appMetadata : String → Option AppMetadata

/-- DB.GetRecordCount: SELECT COUNT(*) FROM usage_records. -/
def GetRecordCount (db : DBState) : ℤ :=
  (db.usageRecords.length : ℤ)

/-- DB.BatchInsertUsageRecords, success path: one transactional append of
the whole batch. -/
def BatchInsertUsageRecords (db : DBState) (records : List UsageRecord) : DBState :=
  { db with usageRecords := db.usageRecords ++ records }

/-- DB.UpsertAppMetadata: insert, or on conflict refresh executablePath
and lastSeen while keeping the stored firstSeen. -/
def UpsertAppMetadata (db : DBState) (meta : AppMetadata) : DBState :=
  { db with appMetadata := fun n =>
      if n = meta.appName then
        match db.appMetadata meta.appName with
        | some oldMeta => some { oldMeta with
            executablePath := meta.executablePath, lastSeen := meta.lastSeen }
        | none => some meta
      else db.appMetadata n }

/-- batchRecord from monitor.go: one pending record in the write batcher. -/
structure BatchRecord where
  appName : String
  processID : ℤ
  upload : ℤ
  download : ℤ
  timestamp : ℤ
  isTemporary : Bool
  expiresAt : ℤ
deriving DecidableEq

/-- Conversion of a pending batch record to a durable UsageRecord, as in
the flush loop of Monitor.flushBatch. -/
def batchToRecord (r : BatchRecord) : UsageRecord :=
  { appName := r.appName, processID := r.processID, uploadBytes := r.upload,
    downloadBytes := r.download, timestamp := r.timestamp,
    isTemporary := r.isTemporary, expiresAt := r.expiresAt }

/-- The per-batch metadata deduplication of flushBatch: first occurrence
of each app name wins, firstSeen is that record's timestamp and lastSeen
is the flush time. -/
def buildMetadataList (batch : List BatchRecord) (now : ℤ) : List AppMetadata :=
  batch.foldl
    (fun acc r =>
      if acc.any (fun m => m.appName == r.appName) then acc
      else acc ++ [{ appName := r.appName, executablePath := r.appName,
                     firstSeen := r.timestamp, lastSeen := now }])
    []

/-- The monitor state the write batcher touches. -/
structure MonitorState where
  stats : StatsMap
  batch : List BatchRecord
  paused : Bool
  saveEnabled : Bool
  db : DBState

/-- Monitor.SetSaveEnabled. -/
def SetSaveEnabled (m : MonitorState) (enabled : Bool) : MonitorState :=
  { m with saveEnabled := enabled }

/-- Monitor.flushBatch (success path of the database writes): when saving
is disabled the batch is cleared and nothing is written; an empty batch is
a no-op; otherwise the batch is swapped out, transactionally inserted,
the deduplicated metadata rows are upserted and the daily summary for
today is additively updated with the batch totals. -/
def flushBatch (m : MonitorState) (today : String) (now : ℤ) : MonitorState :=
  if !m.saveEnabled then { m with batch := [] }
  else if m.batch.isEmpty then m
  else
    let batch := m.batch
    let records := batch.map batchToRecord
    let totalUpload := (batch.map fun r => r.upload).sum
    let totalDownload := (batch.map fun r => r.download).sum
    let metas := buildMetadataList batch now
    let db1 := BatchInsertUsageRecords m.db records
    let db2 := metas.foldl UpsertAppMetadata db1
    let db3 := { db2 with
      dailySummaries := UpdateDailySummary db2.dailySummaries today totalUpload totalDownload }
    { m with batch := [], db := db3 }

/-! ## Single-row insert retry loop (db.go) -/

/-- Outcome of one database Exec attempt, as the retry loop of
DB.InsertUsageRecord distinguishes them: success, a busy/locked error
(the string contains "database is locked" or "SQLITE_BUSY"), or any other
error. -/
inductive ExecOutcome
  | success
  | lockErr
  | otherErr
deriving DecidableEq

/-- What DB.InsertUsageRecord returns: nil, the propagated lock error from
the final attempt, the propagated non-lock error, or the unreachable
after-loop failure value. -/
inductive InsertResult
  | ok
  | errLock
  | errOther
  | errRetriesExhausted
deriving DecidableEq

/-- maxRetries from DB.InsertUsageRecord. -/
def maxRetries : ℕ := 5

/-- The retry loop of DB.InsertUsageRecord, indexed by the loop counter i
with fuel counting the remaining iterations.  The returned list records
the backoff sleeps performed, in milliseconds: a busy attempt i below the
last one sleeps 50 * 2 ^ i and continues; success returns nil at once;
any other error returns at once; a busy final attempt returns its error. -/
def insertLoop (outcome : ℕ → ExecOutcome) (i fuel : ℕ) : InsertResult × List ℕ :=
  match fuel with
  | 0 => (.errRetriesExhausted, [])
  | f + 1 =>
    match outcome i with
    | .success => (.ok, [])
    | .lockErr =>
        if i < maxRetries - 1 then
          let rest := insertLoop outcome (i + 1) f
          (rest.1, (50 * 2 ^ i) :: rest.2)
        else (.errLock, [])
    | .otherErr => (.errOther, [])

/-- DB.InsertUsageRecord as a function of the per-attempt outcomes of the
underlying Exec: result and the list of backoff sleeps performed. -/
def InsertUsageRecordRun (outcome : ℕ → ExecOutcome) : InsertResult × List ℕ :=
  insertLoop outcome 0 maxRetries

/-! ## Helper lemmas about truncation and the counter source -/

theorem goTrunc_of_nonneg {q : ℚ} (h : 0 ≤ q) : goTrunc q = ⌊q⌋ := by
  simp [goTrunc, h]

theorem goTrunc_nonneg {q : ℚ} (h : 0 ≤ q) : 0 ≤ goTrunc q := by
  rw [goTrunc_of_nonneg h]
  exact Int.floor_nonneg.mpr h

theorem getSystemNetworkTotals_fold_nonneg (rows : List MibIfRow2) (a : ℤ × ℤ)
    (h1 : 0 ≤ a.1) (h2 : 0 ≤ a.2) :
    0 ≤ (rows.foldl (fun acc r => (acc.1 + (r.outOctets : ℤ), acc.2 + (r.inOctets : ℤ))) a).1 ∧
    0 ≤ (rows.foldl (fun acc r => (acc.1 + (r.outOctets : ℤ), acc.2 + (r.inOctets : ℤ))) a).2 := by
  induction rows generalizing a with
  | nil => exact ⟨h1, h2⟩
  | cons r rest ih =>
      exact ih _ (by positivity) (by positivity)

theorem getSystemNetworkTotals_nonneg (rows : List MibIfRow2) :
    0 ≤ (getSystemNetworkTotals rows).1 ∧ 0 ≤ (getSystemNetworkTotals rows).2 :=
  getSystemNetworkTotals_fold_nonneg rows (0, 0) le_rfl le_rfl

theorem pidShare_nonneg {totalBytes : ℤ} {w W : ℚ}
    (hD : 0 ≤ totalBytes) (hw : 0 ≤ w) (hW : 0 < W) : 0 ≤ pidShare totalBytes w W := by
  apply goTrunc_nonneg
  have : (0 : ℚ) ≤ (totalBytes : ℚ) := by exact_mod_cast hD
  positivity

/-! ## Helper lemmas about the weight accumulation loops -/

theorem tcpFold_weights (resolve : ℕ → String) (tcp : List TcpRow) (acc : WeightAcc) (pid : ℕ) :
    ((tcp.foldl (tcpStep resolve) acc).weights pid) =
      acc.weights pid + 10 * (countTcpEst tcp pid : ℚ) + (countTcpOther tcp pid : ℚ) := by
  induction tcp generalizing acc with
  | nil => simp [countTcpEst, countTcpOther]
  | cons c rest ih =>
      rw [List.foldl_cons, ih]
      by_cases hp : pid = c.owningPid
      · by_cases hs : c.state = 5 <;>
          simp [tcpStep, countTcpEst, countTcpOther, List.filter_cons, hp.symm, hs] <;> ring
      · have hp' : ¬ c.owningPid = pid := fun h => hp h.symm
        by_cases hs : c.state = 5 <;>
          simp [tcpStep, countTcpEst, countTcpOther, List.filter_cons, hp, hp', hs]

theorem udpFold_weights (resolve : ℕ → String) (udp : List UdpRow) (acc : WeightAcc) (pid : ℕ) :
    ((udp.foldl (udpStep resolve) acc).weights pid) =
      acc.weights pid + (countUdp udp pid : ℚ) / 2 := by
  induction udp generalizing acc with
  | nil => simp [countUdp]
  | cons c rest ih =>
      rw [List.foldl_cons, ih]
      by_cases hp : pid = c.owningPid
      · simp [udpStep, countUdp, List.filter_cons, hp.symm]
        ring
      · have hp' : ¬ c.owningPid = pid := fun h => hp h.symm
        simp [udpStep, countUdp, List.filter_cons, hp, hp']

theorem computeWeights_weights (resolve : ℕ → String) (tcp : List TcpRow) (udp : List UdpRow)
    (pid : ℕ) :
    (computeWeights resolve tcp udp).weights pid =
      10 * (countTcpEst tcp pid : ℚ) + (countTcpOther tcp pid : ℚ) + (countUdp udp pid : ℚ) / 2 := by
  unfold computeWeights
  rw [udpFold_weights, tcpFold_weights]
  ring

theorem computeWeights_weights_nonneg (resolve : ℕ → String) (tcp : List TcpRow)
    (udp : List UdpRow) (pid : ℕ) : 0 ≤ (computeWeights resolve tcp udp).weights pid := by
  rw [computeWeights_weights]
  positivity

/-! ## Helper lemmas about the name-resolution accumulation -/

theorem tcpFold_names (resolve : ℕ → String) (tcp : List TcpRow) (acc : WeightAcc) (pid : ℕ) :
    ((tcp.foldl (tcpStep resolve) acc).names pid) =
      if acc.names pid = "" ∧ pid ∈ tcp.map TcpRow.owningPid ∧ resolve pid ≠ "" then resolve pid
      else acc.names pid := by
  induction tcp generalizing acc with
  | nil => simp
  | cons c rest ih =>
      rw [List.foldl_cons, ih]
      by_cases hp : pid = c.owningPid
      · have hstep : (tcpStep resolve acc c).names pid =
            if acc.names pid = "" ∧ resolve pid ≠ "" then resolve pid else acc.names pid := by
          by_cases hacc : acc.names pid = "" <;>
            by_cases hres : resolve pid = "" <;>
            simp [tcpStep, ← hp, hacc, hres, ite_apply]
        rw [hstep]
        have hmem : pid ∈ (c :: rest).map TcpRow.owningPid := by simp [hp]
        by_cases hacc : acc.names pid = "" <;> by_cases hres : resolve pid = "" <;>
          by_cases hrest : pid ∈ rest.map TcpRow.owningPid <;>
          simp_all
      · have hnames : (tcpStep resolve acc c).names pid = acc.names pid := by
          by_cases hacc : acc.names c.owningPid = "" <;>
            by_cases hres : resolve c.owningPid = "" <;>
            simp [tcpStep, hacc, hres, ite_apply, hp]
        rw [hnames]
        have hmem : (pid ∈ (c :: rest).map TcpRow.owningPid) ↔ (pid ∈ rest.map TcpRow.owningPid) := by
          simp [hp]
        simp only [hmem]

theorem udpFold_names (resolve : ℕ → String) (udp : List UdpRow) (acc : WeightAcc) (pid : ℕ) :
    ((udp.foldl (udpStep resolve) acc).names pid) =
      if acc.names pid = "" ∧ pid ∈ udp.map UdpRow.owningPid ∧ resolve pid ≠ "" then resolve pid
      else acc.names pid := by
  induction udp generalizing acc with
  | nil => simp
  | cons c rest ih =>
      rw [List.foldl_cons, ih]
      by_cases hp : pid = c.owningPid
      · have hstep : (udpStep resolve acc c).names pid =
            if acc.names pid = "" ∧ resolve pid ≠ "" then resolve pid else acc.names pid := by
          by_cases hacc : acc.names pid = "" <;>
            by_cases hres : resolve pid = "" <;>
            simp [udpStep, ← hp, hacc, hres, ite_apply]
        rw [hstep]
        have hmem : pid ∈ (c :: rest).map UdpRow.owningPid := by simp [hp]
        by_cases hacc : acc.names pid = "" <;> by_cases hres : resolve pid = "" <;>
          by_cases hrest : pid ∈ rest.map UdpRow.owningPid <;>
          simp_all
      · have hnames : (udpStep resolve acc c).names pid = acc.names pid := by
          by_cases hacc : acc.names c.owningPid = "" <;>
            by_cases hres : resolve c.owningPid = "" <;>
            simp [udpStep, hacc, hres, ite_apply, hp]
        rw [hnames]
        have hmem : (pid ∈ (c :: rest).map UdpRow.owningPid) ↔ (pid ∈ rest.map UdpRow.owningPid) := by
          simp [hp]
        simp only [hmem]

theorem computeWeights_names (resolve : ℕ → String) (tcp : List TcpRow) (udp : List UdpRow)
    (pid : ℕ) :
    (computeWeights resolve tcp udp).names pid =
      if (pid ∈ tcp.map TcpRow.owningPid ∨ pid ∈ udp.map UdpRow.owningPid) ∧ resolve pid ≠ ""
      then resolve pid else "" := by
  unfold computeWeights
  rw [udpFold_names, tcpFold_names]
  by_cases htcp : pid ∈ tcp.map TcpRow.owningPid <;>
    by_cases hudp : pid ∈ udp.map UdpRow.owningPid <;>
    by_cases hres : resolve pid = "" <;>
    simp [htcp, hudp, hres]

/-! ## Helper lemmas about the distribution loop -/

theorem buildFold_untouched (acc : WeightAcc) (up down : ℤ) (pids : List ℕ)
    (f : String → Option ProcessData) (n : String)
    (h : ∀ q ∈ pids, acc.names q = "" ∨ acc.names q ≠ n) :
    (pids.foldl (buildStep acc up down) f) n = f n := by
  induction pids generalizing f with
  | nil => rfl
  | cons p rest ih =>
      rw [List.foldl_cons, ih _ fun q hq => h q (List.mem_cons_of_mem p hq)]
      rcases h p (List.mem_cons_self p rest) with hp | hp
      · simp [buildStep, hp]
      · by_cases hempty : acc.names p = "" <;>
          simp [buildStep, hempty, Ne.symm hp]

theorem buildFold_at (acc : WeightAcc) (up down : ℤ) (pids : List ℕ)
    (f : String → Option ProcessData) (pid : ℕ)
    (hmem : pid ∈ pids) (hname : acc.names pid ≠ "")
    (huniq : ∀ q ∈ pids, acc.names q = acc.names pid → q = pid) :
    (pids.foldl (buildStep acc up down) f) (acc.names pid) =
      some ⟨(pid : ℤ), pidShare up (acc.weights pid) acc.total,
            pidShare down (acc.weights pid) acc.total⟩ := by
  induction pids generalizing f with
  | nil => cases hmem
  | cons p rest ih =>
      rw [List.foldl_cons]
      by_cases hrest : pid ∈ rest
      · exact ih _ hrest fun q hq hq2 => huniq q (List.mem_cons_of_mem p hq) hq2
      · have hp : pid = p := by
          rcases List.mem_cons.mp hmem with h | h
          · exact h
          · exact absurd h hrest
        subst hp
        rw [buildFold_untouched]
        · simp [buildStep, hname]
        · intro q hq
          by_cases hq0 : acc.names q = ""
          · exact Or.inl hq0
          · exact Or.inr fun hq1 => hrest (huniq q (List.mem_cons_of_mem pid hq) hq1 ▸ hq)

theorem buildFold_inv (acc : WeightAcc) (up down : ℤ) (pids : List ℕ)
    (f : String → Option ProcessData) (n : String) (d : ProcessData)
    (h : (pids.foldl (buildStep acc up down) f) n = some d) :
    f n = some d ∨ ∃ q ∈ pids, acc.names q ≠ "" ∧ n = acc.names q ∧
      d = ⟨(q : ℤ), pidShare up (acc.weights q) acc.total,
           pidShare down (acc.weights q) acc.total⟩ := by
  induction pids generalizing f with
  | nil => exact Or.inl h
  | cons p rest ih =>
      rw [List.foldl_cons] at h
      rcases ih _ h with h1 | ⟨q, hq, hq1, hq2, hq3⟩
      · by_cases hempty : acc.names p = ""
        · rw [buildStep, if_pos hempty] at h1
          exact Or.inl h1
        · rw [buildStep, if_neg hempty] at h1
          by_cases hn : n = acc.names p
          · rw [if_pos hn] at h1
            exact Or.inr ⟨p, List.mem_cons_self p rest, hempty, hn, (Option.some_inj.mp h1).symm⟩
          · rw [if_neg hn] at h1
            exact Or.inl h1
      · exact Or.inr ⟨q, List.mem_cons_of_mem p hq, hq1, hq2, hq3⟩

/-! ## Helper lemmas: the weights of an enumeration of all pids sum to the
total weight -/

theorem sum_map_update (l : List ℕ) (hnd : l.Nodup) (p : ℕ) (hp : p ∈ l)
    (w : ℕ → ℚ) (x : ℚ) :
    (l.map fun q => if q = p then w q + x else w q).sum = (l.map w).sum + x := by
  induction l with
  | nil => cases hp
  | cons a rest ih =>
      rcases List.nodup_cons.mp hnd with ⟨hanr, hndr⟩
      rcases List.mem_cons.mp hp with h | h
      · have hrest : (rest.map fun q => if q = p then w q + x else w q) = rest.map w := by
          apply List.map_congr_left
          intro q hq
          have hqp : q ≠ p := fun hqa => hanr ((hqa.trans h) ▸ hq)
          simp [hqp]
        simp only [List.map_cons, List.sum_cons, hrest, ← h, if_true]
        ring
      · have hne : a ≠ p := fun hap => hanr (hap ▸ h)
        simp only [List.map_cons, List.sum_cons, if_neg hne, ih hndr h]
        ring

theorem tcpFold_weights_sum (resolve : ℕ → String) (tcp : List TcpRow) (pids : List ℕ)
    (hnd : pids.Nodup) (htcp : ∀ c ∈ tcp, c.owningPid ∈ pids) (acc : WeightAcc)
    (hacc : (pids.map acc.weights).sum = acc.total) :
    (pids.map (tcp.foldl (tcpStep resolve) acc).weights).sum =
      (tcp.foldl (tcpStep resolve) acc).total := by
  induction tcp generalizing acc with
  | nil => exact hacc
  | cons c rest ih =>
      rw [List.foldl_cons]
      apply ih (fun d hd => htcp d (List.mem_cons_of_mem c hd))
      have hc : c.owningPid ∈ pids := htcp c (List.mem_cons_self c rest)
      simp only [tcpStep]
      rw [sum_map_update pids hnd c.owningPid hc]
      rw [hacc]

theorem udpFold_weights_sum (resolve : ℕ → String) (udp : List UdpRow) (pids : List ℕ)
    (hnd : pids.Nodup) (hudp : ∀ c ∈ udp, c.owningPid ∈ pids) (acc : WeightAcc)
    (hacc : (pids.map acc.weights).sum = acc.total) :
    (pids.map (udp.foldl (udpStep resolve) acc).weights).sum =
      (udp.foldl (udpStep resolve) acc).total := by
  induction udp generalizing acc with
  | nil => exact hacc
  | cons c rest ih =>
      rw [List.foldl_cons]
      apply ih (fun d hd => hudp d (List.mem_cons_of_mem c hd))
      have hc : c.owningPid ∈ pids := hudp c (List.mem_cons_self c rest)
      simp only [udpStep]
      rw [sum_map_update pids hnd c.owningPid hc]
      rw [hacc]

theorem computeWeights_sum (resolve : ℕ → String) (tcp : List TcpRow) (udp : List UdpRow)
    (pids : List ℕ) (hnd : pids.Nodup)
    (htcp : ∀ c ∈ tcp, c.owningPid ∈ pids) (hudp : ∀ c ∈ udp, c.owningPid ∈ pids) :
    (pids.map (computeWeights resolve tcp udp).weights).sum =
      (computeWeights resolve tcp udp).total := by
  unfold computeWeights
  apply udpFold_weights_sum resolve udp pids hnd hudp
  apply tcpFold_weights_sum resolve tcp pids hnd htcp
  simp

/-! ## Helper lemmas: bounds on sums of truncated shares -/

theorem sum_goTrunc_le (l : List ℚ) (h : ∀ x ∈ l, 0 ≤ x) :
    (((l.map goTrunc).sum : ℤ) : ℚ) ≤ l.sum := by
  induction l with
  | nil => simp
  | cons x rest ih =>
      have hx : 0 ≤ x := h x (List.mem_cons_self x rest)
      have hrest := ih fun y hy => h y (List.mem_cons_of_mem x hy)
      simp only [List.map_cons, List.sum_cons]
      push_cast
      push_cast at hrest
      have : ((goTrunc x : ℤ) : ℚ) ≤ x := by
        rw [goTrunc_of_nonneg hx]
        exact Int.floor_le x
      linarith

theorem sum_goTrunc_ge (l : List ℚ) (h : ∀ x ∈ l, 0 ≤ x) :
    l.sum - l.length ≤ (((l.map goTrunc).sum : ℤ) : ℚ) := by
  induction l with
  | nil => simp
  | cons x rest ih =>
      have hx : 0 ≤ x := h x (List.mem_cons_self x rest)
      have hrest := ih fun y hy => h y (List.mem_cons_of_mem x hy)
      simp only [List.map_cons, List.sum_cons, List.length_cons]
      push_cast
      push_cast at hrest
      have : x - 1 ≤ ((goTrunc x : ℤ) : ℚ) := by
        rw [goTrunc_of_nonneg hx]
        have := Int.lt_floor_add_one x
        linarith
      linarith

/-- When the listed pids cover every connection without repetition, the
truncated shares of one direction sum to within pids.length below the
distributed total and never above it. -/
theorem pidShare_sum_bounds (resolve : ℕ → String) (tcp : List TcpRow) (udp : List UdpRow)
    (pids : List ℕ) (totalBytes : ℤ) (hD : 0 ≤ totalBytes) (hnd : pids.Nodup)
    (htcp : ∀ c ∈ tcp, c.owningPid ∈ pids) (hudp : ∀ c ∈ udp, c.owningPid ∈ pids)
    (hW : 0 < (computeWeights resolve tcp udp).total) :
    totalBytes - pids.length ≤
        (pids.map fun p => pidShare totalBytes ((computeWeights resolve tcp udp).weights p)
          (computeWeights resolve tcp udp).total).sum ∧
      (pids.map fun p => pidShare totalBytes ((computeWeights resolve tcp udp).weights p)
          (computeWeights resolve tcp udp).total).sum ≤ totalBytes := by
  set acc := computeWeights resolve tcp udp with hacc
  set l : List ℚ := pids.map fun p => (totalBytes : ℚ) * (acc.weights p / acc.total) with hl
  have hnn : ∀ x ∈ l, 0 ≤ x := by
    intro x hx
    rcases List.mem_map.mp hx with ⟨p, _, rfl⟩
    have hw : 0 ≤ acc.weights p := computeWeights_weights_nonneg resolve tcp udp p
    have hD' : (0 : ℚ) ≤ (totalBytes : ℚ) := by exact_mod_cast hD
    positivity
  have hmap : (pids.map fun p => pidShare totalBytes (acc.weights p) acc.total) =
      l.map goTrunc := by
    rw [hl, List.map_map]
    rfl
  have hsum : l.sum = (totalBytes : ℚ) := by
    have hws := computeWeights_sum resolve tcp udp pids hnd htcp hudp
    rw [hl]
    have : (pids.map fun p => (totalBytes : ℚ) * (acc.weights p / acc.total)) =
        pids.map fun p => ((totalBytes : ℚ) / acc.total) * acc.weights p := by
      apply List.map_congr_left
      intro p _
      ring
    rw [this, List.sum_map_mul_left, hws, ← hacc]
    field_simp
  have hlen : l.length = pids.length := by
    rw [hl, List.length_map]
  have hle := sum_goTrunc_le l hnn
  have hge := sum_goTrunc_ge l hnn
  rw [hsum] at hle
  rw [hsum, hlen] at hge
  rw [hmap]
  constructor
  · exact_mod_cast hge
  · exact_mod_cast hle

/-! ## Helper lemmas: attributed deltas are never negative, and one
monitor tick never decreases the running totals -/

theorem getNetworkProcesses_nonneg (rows : List MibIfRow2) (tcp : List TcpRow)
    (udp : List UdpRow) (resolve : ℕ → String) (pids : List ℕ) (n : String)
    (d : ProcessData) (h : getNetworkProcesses rows tcp udp resolve pids n = some d) :
    0 ≤ d.uploadBytes ∧ 0 ≤ d.downloadBytes := by
  unfold getNetworkProcesses at h
  by_cases hW : 0 < (computeWeights resolve tcp udp).total
  · rw [if_pos hW] at h
    unfold buildResult at h
    rcases buildFold_inv _ _ _ _ _ _ _ h with h1 | ⟨q, _, _, _, hd⟩
    · cases h1
    · subst hd
      refine ⟨pidShare_nonneg ?_ ?_ hW, pidShare_nonneg ?_ ?_ hW⟩
      · exact (getSystemNetworkTotals_nonneg rows).1
      · exact computeWeights_weights_nonneg resolve tcp udp q
      · exact (getSystemNetworkTotals_nonneg rows).2
      · exact computeWeights_weights_nonneg resolve tcp udp q
  · rw [if_neg hW] at h
    cases h

theorem collectStats_total_mono (processes : String → Option ProcessData) (now : ℚ)
    (stats : StatsMap) (name : String) (st st' : NetworkStat)
    (hnn : ∀ d, processes name = some d → 0 ≤ d.uploadBytes ∧ 0 ≤ d.downloadBytes)
    (h : stats name = some st) (h' : collectStats processes now stats name = some st') :
    st.totalUpload ≤ st'.totalUpload ∧ st.totalDownload ≤ st'.totalDownload := by
  cases hp : processes name with
  | none =>
      simp only [collectStats, hp, h, Option.map_some'] at h'
      cases h'
      simp
  | some data =>
      simp only [collectStats, hp, h] at h'
      rcases hnn data hp with ⟨hu, hd⟩
      by_cases hzero : data.uploadBytes = 0 ∧ data.downloadBytes = 0
      · simp only [updateStat, if_pos hzero, Option.getD_some] at h'
        cases h'
        simp
      · simp only [updateStat, if_neg hzero, Option.getD_some] at h'
        cases h'
        refine ⟨?_, ?_⟩ <;> simp <;> omega

theorem tickStep_total_mono (t : TickInput) (stats : StatsMap) (name : String)
    (st st' : NetworkStat) (h : stats name = some st)
    (h' : tickStep t stats name = some st') :
    st.totalUpload ≤ st'.totalUpload ∧ st.totalDownload ≤ st'.totalDownload := by
  cases hc : collectStep t stats name with
  | none =>
      simp only [tickStep, cleanupInactive, hc] at h'
      cases h'
  | some mid =>
      simp only [tickStep, cleanupInactive, hc] at h'
      by_cases hold : t.now - mid.lastUpdate > CLEANUP_THRESHOLD
      · simp only [if_pos hold] at h'
        cases h'
      · simp only [if_neg hold] at h'
        cases h'
        exact collectStats_total_mono _ t.now stats name st st'
          (fun d hd => getNetworkProcesses_nonneg _ _ _ _ _ _ _ hd) h hc

/-! ## Helper lemma: full characterisation of the insert retry loop -/

theorem insertLoop_spec (outcome : ℕ → ExecOutcome) :
    ∀ fuel i, i + fuel = maxRetries → 0 < fuel →
      (∀ k, k < (insertLoop outcome i fuel).2.length →
          outcome (i + k) = .lockErr ∧
          (insertLoop outcome i fuel).2.get? k = some (50 * 2 ^ (i + k)))
      ∧ (insertLoop outcome i fuel).2.length + 1 ≤ fuel
      ∧ ((insertLoop outcome i fuel).1 = .ok ↔
          outcome (i + (insertLoop outcome i fuel).2.length) = .success)
      ∧ ((insertLoop outcome i fuel).1 = .errOther ↔
          outcome (i + (insertLoop outcome i fuel).2.length) = .otherErr)
      ∧ (insertLoop outcome i fuel).1 ≠ .errRetriesExhausted := by
  intro fuel
  induction fuel with
  | zero => intro i _ h0; cases h0
  | succ f ih =>
      intro i hi _
      cases houtcome : outcome i with
      | success =>
          simp [insertLoop, houtcome]
      | otherErr =>
          simp [insertLoop, houtcome]
      | lockErr =>
          by_cases hlast : i < maxRetries - 1
          · have hf : 0 < f := by
              unfold maxRetries at hi hlast
              omega
            have hrec := ih (i + 1) (by omega) hf
            simp only [insertLoop, houtcome, if_pos hlast]
            refine ⟨?_, ?_, ?_, ?_, ?_⟩
            · intro k hk
              simp only [List.length_cons] at hk
              cases k with
              | zero => simpa using houtcome
              | succ j =>
                  have hj : j < (insertLoop outcome (i + 1) f).2.length := by
                    simpa using Nat.lt_of_succ_lt_succ hk
                  rcases hrec.1 j hj with ⟨h1, h2⟩
                  constructor
                  · have : i + (j + 1) = i + 1 + j := by omega
                    rw [this]
                    exact h1
                  · simp only [List.get?_cons_succ]
                    have : i + (j + 1) = i + 1 + j := by omega
                    rw [this]
                    exact h2
            · simp only [List.length_cons]
              have := hrec.2.1
              omega
            · simp only [List.length_cons]
              have : i + ((insertLoop outcome (i + 1) f).2.length + 1) =
                  i + 1 + (insertLoop outcome (i + 1) f).2.length := by omega
              rw [this]
              exact hrec.2.2.1
            · simp only [List.length_cons]
              have : i + ((insertLoop outcome (i + 1) f).2.length + 1) =
                  i + 1 + (insertLoop outcome (i + 1) f).2.length := by omega
              rw [this]
              exact hrec.2.2.2.1
            · exact hrec.2.2.2.2
          · simp [insertLoop, houtcome, if_neg hlast]

/-! ## Concrete scenarios used by witnesses and counterexamples -/

/-- Interface counters of the spec scenario: 1000 bytes uploaded, 2000
downloaded. -/
def exRows : List MibIfRow2 := [⟨2000, 1000⟩]

/-- Two established TCP connections owned by pid 1. -/
def exTcp : List TcpRow := [⟨5, 1⟩, ⟨5, 1⟩]

/-- One UDP endpoint owned by pid 2. -/
def exUdp : List UdpRow := [⟨2⟩]

/-- Pid 1 resolves to process name a, pid 2 to b. -/
def exResolve : ℕ → String := fun p => if p = 1 then "a" else if p = 2 then "b" else ""

/-- Iteration order over the weight map keys of the scenario. -/
def exPids : List ℕ := [1, 2]

/-! ## Claim theorems -/

/-- C1: on a sampling tick the attribution weight of a pid is 10 per
established TCP connection (state 5), 1 per other TCP connection and 0.5
per UDP endpoint, accumulated over all its connections; with positive
total weight, a pid whose name resolves (and is not shadowed by another
pid of the same display name) receives the share
trunc(total * weight/totalWeight) of each direction, and a pid whose name
does not resolve contributes no entry at all — the distribution loop skips
it with continue rather than failing, and the whole model is a total
function, so no error is raised. -/
theorem c1_weights_and_apportionment (rows : List MibIfRow2) (tcp : List TcpRow)
    (udp : List UdpRow) (resolve : ℕ → String) (pids : List ℕ) (pid : ℕ) :
    (computeWeights resolve tcp udp).weights pid =
        10 * (countTcpEst tcp pid : ℚ) + (countTcpOther tcp pid : ℚ) + (countUdp udp pid : ℚ) / 2
    ∧ (0 < (computeWeights resolve tcp udp).total →
        pid ∈ pids →
        (pid ∈ tcp.map TcpRow.owningPid ∨ pid ∈ udp.map UdpRow.owningPid) →
        resolve pid ≠ "" →
        (∀ q ∈ pids, (computeWeights resolve tcp udp).names q =
            (computeWeights resolve tcp udp).names pid → q = pid) →
        getNetworkProcesses rows tcp udp resolve pids (resolve pid) =
          some ⟨(pid : ℤ),
            pidShare (getSystemNetworkTotals rows).1
              ((computeWeights resolve tcp udp).weights pid)
              (computeWeights resolve tcp udp).total,
            pidShare (getSystemNetworkTotals rows).2
              ((computeWeights resolve tcp udp).weights pid)
              (computeWeights resolve tcp udp).total⟩)
    ∧ (resolve pid = "" →
        ∀ n d, getNetworkProcesses rows tcp udp resolve pids n = some d →
          d.processID ≠ (pid : ℤ)) := by
  refine ⟨computeWeights_weights resolve tcp udp pid, ?_, ?_⟩
  · intro htotal hmem hocc hres huniq
    have hname : (computeWeights resolve tcp udp).names pid = resolve pid := by
      rw [computeWeights_names, if_pos (And.intro hocc hres)]
    have hname' : (computeWeights resolve tcp udp).names pid ≠ "" := by
      rw [hname]
      exact hres
    simp only [getNetworkProcesses, if_pos htotal]
    rw [← hname]
    exact buildFold_at (computeWeights resolve tcp udp) _ _ pids (fun _ => none) pid
      hmem hname' huniq
  · intro hres n d h
    have hname : (computeWeights resolve tcp udp).names pid = "" := by
      rw [computeWeights_names]
      simp [hres]
    simp only [getNetworkProcesses] at h
    by_cases htotal : 0 < (computeWeights resolve tcp udp).total
    · rw [if_pos htotal] at h
      rcases buildFold_inv _ _ _ _ _ _ _ h with h1 | ⟨q, _, hq1, _, hq3⟩
      · cases h1
      · subst hq3
        intro hpid
        have hq2 : (q : ℤ) = (pid : ℤ) := hpid
        have hqpid : q = pid := by exact_mod_cast hq2
        exact hq1 (hqpid ▸ hname)
    · rw [if_neg htotal] at h
      cases h

/-- C1 witness: in the concrete scenario (two established TCP connections
of pid 1, one UDP endpoint of pid 2), pid 1 resolves to a and receives its
proportional share of both directions. -/
theorem c1_weights_and_apportionment_witness :
    getNetworkProcesses exRows exTcp exUdp exResolve exPids (exResolve 1) =
      some ⟨(1 : ℤ),
        pidShare (getSystemNetworkTotals exRows).1
          ((computeWeights exResolve exTcp exUdp).weights 1)
          (computeWeights exResolve exTcp exUdp).total,
        pidShare (getSystemNetworkTotals exRows).2
          ((computeWeights exResolve exTcp exUdp).weights 1)
          (computeWeights exResolve exTcp exUdp).total⟩ := by
  apply (c1_weights_and_apportionment exRows exTcp exUdp exResolve exPids 1).2.1
  · simp [computeWeights, tcpStep, udpStep, exTcp, exUdp, exResolve, ite_apply]
    norm_num
  · simp [exPids]
  · exact Or.inl (by simp [exTcp])
  · simp [exResolve]
  · intro q hq hname
    have hq' : q = 1 ∨ q = 2 := by simpa [exPids] using hq
    rcases hq' with rfl | rfl
    · rfl
    · rw [computeWeights_names, computeWeights_names] at hname
      simp [exTcp, exUdp, exResolve] at hname

/-- Interface counters held constant across ticks: 1000 out, 2000 in. -/
def cumRows : List MibIfRow2 := [⟨2000, 1000⟩]

/-- One established TCP connection of pid 1. -/
def cumTcp : List TcpRow := [⟨5, 1⟩]

/-- Pid 1 resolves to a. -/
def cumResolve : ℕ → String := fun p => if p = 1 then "a" else ""

/-- Key iteration order for the single-pid snapshot. -/
def cumPids : List ℕ := [1]

/-- C2 (code bug witness): the Windows counter path keeps no previous-tick
state at all — getNetworkProcesses is a function of the current snapshot
only, and it apportions the raw cumulative totals read from
getSystemNetworkIO.  Feeding the identical snapshot (cumulative counters
1000 up / 2000 down, so a zero since-last-tick delta, as also on the very
first sample) attributes the full cumulative 1000/2000 bytes to the lone
process on every such tick, where the claim (and the comment in
Monitor.collect, which says getNetworkProcesses returns delta bytes)
requires 0. -/
theorem c2_cumulative_apportioned_not_delta :
    getNetworkProcesses cumRows cumTcp [] cumResolve cumPids "a" = some ⟨1, 1000, 2000⟩
    ∧ (1000 : ℤ) ≠ 0 ∧ (2000 : ℤ) ≠ 0 := by
  refine ⟨?_, by decide, by decide⟩
  simp [getNetworkProcesses, computeWeights, tcpStep, udpStep, buildResult, buildStep,
    pidShare, goTrunc, getSystemNetworkTotals, cumRows, cumTcp, cumResolve, cumPids, ite_apply]

/-- C3 counterexample: in the spec scenario (two established TCP
connections of pid A = 1, one UDP endpoint of pid B = 2, system totals
(1000, 2000)), the code gives B trunc(1000 * 0.5/20.5) = 24 upload bytes,
not the remainder 1000 - 975 = 25 the claim asserts. -/
theorem c3_counterexample :
    getNetworkProcesses exRows exTcp exUdp exResolve exPids "a" = some ⟨1, 975, 1951⟩
    ∧ getNetworkProcesses exRows exTcp exUdp exResolve exPids "b" = some ⟨2, 24, 48⟩
    ∧ (24 : ℤ) ≠ 1000 - 975 := by
  refine ⟨?_, ?_, by decide⟩ <;>
    · simp [getNetworkProcesses, computeWeights, tcpStep, udpStep, buildResult, buildStep,
        pidShare, goTrunc, getSystemNetworkTotals, exRows, exTcp, exUdp, exResolve, exPids,
        ite_apply]
      norm_num

/-- C3 (amended): when the listed pids enumerate every connection owner
without repetition and the total weight is positive, the truncated shares
of either direction sum to the system-wide total up to a truncation
deficit of at most the number of pids (the sum never exceeds the total);
in the concrete scenario A receives floor(1000 * 20/20.5) = 975 upload
bytes and B receives floor(1000 * 0.5/20.5) = 24 — not the remainder 25 —
leaving a drift of 1 ≤ 2. -/
theorem c3_apportionment_sums (rows : List MibIfRow2) (tcp : List TcpRow) (udp : List UdpRow)
    (resolve : ℕ → String) (pids : List ℕ)
    (hnd : pids.Nodup)
    (htcp : ∀ c ∈ tcp, c.owningPid ∈ pids)
    (hudp : ∀ c ∈ udp, c.owningPid ∈ pids)
    (hW : 0 < (computeWeights resolve tcp udp).total) :
    ((getSystemNetworkTotals rows).1 - pids.length ≤
        (pids.map fun p => pidShare (getSystemNetworkTotals rows).1
          ((computeWeights resolve tcp udp).weights p)
          (computeWeights resolve tcp udp).total).sum
      ∧ (pids.map fun p => pidShare (getSystemNetworkTotals rows).1
          ((computeWeights resolve tcp udp).weights p)
          (computeWeights resolve tcp udp).total).sum ≤ (getSystemNetworkTotals rows).1)
    ∧ ((getSystemNetworkTotals rows).2 - pids.length ≤
        (pids.map fun p => pidShare (getSystemNetworkTotals rows).2
          ((computeWeights resolve tcp udp).weights p)
          (computeWeights resolve tcp udp).total).sum
      ∧ (pids.map fun p => pidShare (getSystemNetworkTotals rows).2
          ((computeWeights resolve tcp udp).weights p)
          (computeWeights resolve tcp udp).total).sum ≤ (getSystemNetworkTotals rows).2)
    ∧ (getNetworkProcesses exRows exTcp exUdp exResolve exPids "a" = some ⟨1, 975, 1951⟩
      ∧ getNetworkProcesses exRows exTcp exUdp exResolve exPids "b" = some ⟨2, 24, 48⟩
      ∧ (1000 : ℤ) - (975 + 24) = 1 ∧ (1 : ℤ) ≤ 2) := by
  refine ⟨?_, ?_, ?_, ?_, by decide, by decide⟩
  · exact pidShare_sum_bounds resolve tcp udp pids (getSystemNetworkTotals rows).1
      (getSystemNetworkTotals_nonneg rows).1 hnd htcp hudp hW
  · exact pidShare_sum_bounds resolve tcp udp pids (getSystemNetworkTotals rows).2
      (getSystemNetworkTotals_nonneg rows).2 hnd htcp hudp hW
  all_goals
    simp [getNetworkProcesses, computeWeights, tcpStep, udpStep, buildResult, buildStep,
      pidShare, goTrunc, getSystemNetworkTotals, exRows, exTcp, exUdp, exResolve, exPids,
      ite_apply]
    norm_num

/-- C3 witness: the summation bound applied to the concrete scenario. -/
theorem c3_apportionment_sums_witness :
    (getSystemNetworkTotals exRows).1 - (exPids.length : ℤ) ≤
        (exPids.map fun p => pidShare (getSystemNetworkTotals exRows).1
          ((computeWeights exResolve exTcp exUdp).weights p)
          (computeWeights exResolve exTcp exUdp).total).sum
    ∧ (exPids.map fun p => pidShare (getSystemNetworkTotals exRows).1
        ((computeWeights exResolve exTcp exUdp).weights p)
        (computeWeights exResolve exTcp exUdp).total).sum ≤ (getSystemNetworkTotals exRows).1 := by
  apply (c3_apportionment_sums exRows exTcp exUdp exResolve exPids ?_ ?_ ?_ ?_).1
  · decide
  · decide
  · decide
  · simp [computeWeights, tcpStep, udpStep, exTcp, exUdp, exResolve, ite_apply]
    norm_num

/-- C4: across any sequence of monitor ticks (collect followed by the
inactivity sweep), an entry that stays in the stats map after every tick
never sees its totalUpload or totalDownload decrease: each tick adds the
attributed delta, which is never negative, and no other operation touches
the totals. -/
theorem c4_totals_monotone (ts : List TickInput) :
    ∀ (s : StatsMap) (name : String) (st0 stN : NetworkStat),
      s name = some st0 →
      runTicks ts s name = some stN →
      (∀ k, k ≤ ts.length → (runTicks (ts.take k) s name).isSome = true) →
      st0.totalUpload ≤ stN.totalUpload ∧ st0.totalDownload ≤ stN.totalDownload := by
  induction ts with
  | nil =>
      intro s name st0 stN h0 hN _
      rw [show runTicks [] s = s from rfl, h0] at hN
      cases hN
      exact ⟨le_rfl, le_rfl⟩
  | cons t rest ih =>
      intro s name st0 stN h0 hN hlive
      have hs1 : (tickStep t s name).isSome = true := by
        have h1 := hlive 1 (by simp)
        simpa [runTicks] using h1
      rcases Option.isSome_iff_exists.mp hs1 with ⟨st1, hst1⟩
      have hstep := tickStep_total_mono t s name st0 st1 h0 hst1
      have hN' : runTicks rest (tickStep t s) name = some stN := by
        simpa [runTicks] using hN
      have hlive' : ∀ k, k ≤ rest.length →
          (runTicks (rest.take k) (tickStep t s) name).isSome = true := by
        intro k hk
        have h2 := hlive (k + 1) (by simpa using Nat.succ_le_succ hk)
        simpa [runTicks] using h2
      have hrest := ih (tickStep t s) name st1 stN hst1 hN' hlive'
      exact ⟨le_trans hstep.1 hrest.1, le_trans hstep.2 hrest.2⟩

/-- A tick with an empty snapshot: no interfaces, no connections. -/
def idleTick : TickInput := ⟨[], [], [], fun _ => "", [], 2⟩

/-- A stats entry with nonzero totals last updated at second 1. -/
def statA : NetworkStat := ⟨"a", 7, 3, 4, 5, 6, 1⟩

/-- statA after an idle tick: speeds reset, totals and lastUpdate kept. -/
def statAIdle : NetworkStat := ⟨"a", 7, 0, 0, 5, 6, 1⟩

/-- A stats map holding only statA. -/
def statsA : StatsMap := fun n => if n = "a" then some statA else none

/-- C4 witness: over one idle tick the surviving entry keeps its totals. -/
theorem c4_totals_monotone_witness :
    statA.totalUpload ≤ statAIdle.totalUpload ∧
      statA.totalDownload ≤ statAIdle.totalDownload := by
  apply c4_totals_monotone [idleTick] statsA "a" statA statAIdle
  · simp [statsA]
  · simp [runTicks, tickStep, collectStep, collectStats, cleanupInactive, getNetworkProcesses,
      computeWeights, getSystemNetworkTotals, idleTick, statsA, statA, statAIdle,
      CLEANUP_THRESHOLD]
    norm_num
  · intro k hk
    rcases Nat.le_one_iff_eq_zero_or_eq_one.mp hk with rfl | rfl
    · simp [runTicks, statsA]
    · simp [runTicks, tickStep, collectStep, collectStats, cleanupInactive, getNetworkProcesses,
        computeWeights, getSystemNetworkTotals, idleTick, statsA, statA, CLEANUP_THRESHOLD]
      norm_num

/-- C5: an entry whose lastUpdate lies more than CLEANUP_THRESHOLD = 3
seconds before the sweep time is deleted by cleanupInactive, so GetStats
no longer returns it. -/
theorem c5_inactive_entry_removed (stats : StatsMap) (now : ℚ) (name : String)
    (st : NetworkStat) (h : stats name = some st)
    (hstale : now - st.lastUpdate > CLEANUP_THRESHOLD) :
    GetStats (cleanupInactive now stats) name = none := by
  simp [GetStats, cleanupInactive, h, hstale]

/-- A stats entry last updated at time 0. -/
def staleStat : NetworkStat := ⟨"a", 1, 0, 0, 9, 9, 0⟩

/-- A stats map holding only staleStat. -/
def staleStats : StatsMap := fun n => if n = "a" then some staleStat else none

/-- C5 witness: at sweep time 4, the entry last updated at 0 is gone. -/
theorem c5_inactive_entry_removed_witness :
    GetStats (cleanupInactive 4 staleStats) "a" = none := by
  apply c5_inactive_entry_removed staleStats 4 "a" staleStat
  · simp [staleStats]
  · simp [staleStat, CLEANUP_THRESHOLD]
    norm_num

/-- Interface counters so small that pid 2's share truncates to zero:
1 byte out, 1 byte in. -/
def zsRows : List MibIfRow2 := [⟨1, 1⟩]

/-- One established TCP connection of pid 1 (weight 10). -/
def zsTcp : List TcpRow := [⟨5, 1⟩]

/-- One UDP endpoint of pid 2 (weight 0.5). -/
def zsUdp : List UdpRow := [⟨2⟩]

/-- Pid 1 resolves to a, pid 2 to b. -/
def zsResolve : ℕ → String := fun p => if p = 1 then "a" else if p = 2 then "b" else ""

/-- Key iteration order for the zero-share snapshot. -/
def zsPids : List ℕ := [1, 2]

/-- An existing entry for b with nonzero speeds from an earlier tick. -/
def zsStatB : NetworkStat := ⟨"b", 2, 7, 7, 100, 100, 1⟩

/-- A stats map holding only zsStatB. -/
def zsStats : StatsMap := fun n => if n = "b" then some zsStatB else none

/-- The tick over the zero-share snapshot at time 2. -/
def zsTick : TickInput := ⟨zsRows, zsTcp, zsUdp, zsResolve, zsPids, 2⟩

/-- C6 counterexample: entry b exists before the tick and receives zero
upload and download delta during it (its name is in the attribution map
with deltas (0, 0) because its share truncates to zero), yet after
collect its uploadSpeed and downloadSpeed are still 7, not 0: the update
loop skips it with continue and the reset loop sees its name among this
tick's processes, so it is left untouched. -/
theorem c6_counterexample :
    zsStats "b" = some zsStatB
    ∧ getNetworkProcesses zsRows zsTcp zsUdp zsResolve zsPids "b" = some ⟨2, 0, 0⟩
    ∧ collectStep zsTick zsStats "b" = some zsStatB
    ∧ zsStatB.uploadSpeed = 7 ∧ zsStatB.downloadSpeed = 7 ∧ (7 : ℤ) ≠ 0 := by
  refine ⟨by simp [zsStats], ?_, ?_, rfl, rfl, by decide⟩
  · simp [getNetworkProcesses, computeWeights, tcpStep, udpStep, buildResult, buildStep,
      pidShare, goTrunc, getSystemNetworkTotals, zsRows, zsTcp, zsUdp, zsResolve, zsPids,
      ite_apply]
    norm_num
  · simp [collectStep, collectStats, updateStat, getNetworkProcesses, computeWeights,
      tcpStep, udpStep, buildResult, buildStep, pidShare, goTrunc, getSystemNetworkTotals,
      zsTick, zsRows, zsTcp, zsUdp, zsResolve, zsPids, zsStats, ite_apply]
    norm_num

/-- C6 (amended): after a collect pass, an existing entry whose name is
absent from this tick's attribution map has both instantaneous speeds set
to 0 while its totals and lastUpdate stay; an existing entry whose name is
present in the map but with zero delta in both directions is left entirely
unchanged — its previous speeds persist. -/
theorem c6_idle_entry_speeds (processes : String → Option ProcessData) (now : ℚ)
    (stats : StatsMap) (name : String) (st : NetworkStat) (h : stats name = some st) :
    (processes name = none →
        collectStats processes now stats name =
          some { st with uploadSpeed := 0, downloadSpeed := 0 })
    ∧ (∀ d, processes name = some d → d.uploadBytes = 0 → d.downloadBytes = 0 →
        collectStats processes now stats name = some st) := by
  constructor
  · intro hnone
    simp [collectStats, hnone, h]
  · intro d hd hu hdn
    simp [collectStats, hd, updateStat, hu, hdn, h]

/-- C6 witness: in the zero-share snapshot, entry b is present in the
attribution map with deltas (0, 0) and the collect pass leaves it
unchanged. -/
theorem c6_idle_entry_speeds_witness :
    collectStats (getNetworkProcesses zsRows zsTcp zsUdp zsResolve zsPids) 2 zsStats "b" =
      some zsStatB := by
  apply (c6_idle_entry_speeds (getNetworkProcesses zsRows zsTcp zsUdp zsResolve zsPids) 2
    zsStats "b" zsStatB (by simp [zsStats])).2 ⟨2, 0, 0⟩ ?_ rfl rfl
  simp [getNetworkProcesses, computeWeights, tcpStep, udpStep, buildResult, buildStep,
    pidShare, goTrunc, getSystemNetworkTotals, zsRows, zsTcp, zsUdp, zsResolve, zsPids,
    ite_apply]
  norm_num

/-- C7: UpdateDailySummary is additive.  Starting from a date with no
stored row, two flushes contributing (u1, d1) and (u2, d2) leave exactly
(u1 + u2, d1 + d2) for that date; and in general an update onto an
existing row adds the new totals onto the stored ones — it never
overwrites them or takes a maximum. -/
theorem c7_daily_summary_additive (t : SummaryTable) (date : String) (u1 d1 u2 d2 : ℤ)
    (h : t date = none) :
    UpdateDailySummary (UpdateDailySummary t date u1 d1) date u2 d2 date =
        some (u1 + u2, d1 + d2)
    ∧ (∀ (t2 : SummaryTable) (u0 d0 u d : ℤ), t2 date = some (u0, d0) →
        UpdateDailySummary t2 date u d date = some (u0 + u, d0 + d)) := by
  constructor
  · simp [UpdateDailySummary, h]
  · intro t2 u0 d0 u d h2
    simp [UpdateDailySummary, h2]

/-- The daily_summaries table with no rows. -/
def emptySummaries : SummaryTable := fun _ => none

/-- C7 witness: two flushes of (3, 4) and (5, 6) onto an empty date leave
(3 + 5, 4 + 6). -/
theorem c7_daily_summary_additive_witness :
    UpdateDailySummary (UpdateDailySummary emptySummaries "2024-01-01" 3 4)
        "2024-01-01" 5 6 "2024-01-01" = some (3 + 5, 4 + 6) :=
  (c7_daily_summary_additive emptySummaries "2024-01-01" 3 4 5 6 rfl).1

/-- C8: with persistence disabled via SetSaveEnabled false, flushBatch
clears the whole pending buffer without touching the database: no usage
record is inserted, the daily summaries and app metadata are unchanged,
and the durable record count is the same across the flush. -/
theorem c8_disabled_flush_discards (m : MonitorState) (today : String) (now : ℤ) :
    (flushBatch (SetSaveEnabled m false) today now).batch = []
    ∧ (flushBatch (SetSaveEnabled m false) today now).db = m.db
    ∧ (flushBatch (SetSaveEnabled m false) today now).db.usageRecords = m.db.usageRecords
    ∧ (flushBatch (SetSaveEnabled m false) today now).db.dailySummaries = m.db.dailySummaries
    ∧ (flushBatch (SetSaveEnabled m false) today now).db.appMetadata = m.db.appMetadata
    ∧ GetRecordCount (flushBatch (SetSaveEnabled m false) today now).db =
        GetRecordCount m.db := by
  refine ⟨?_, ?_, ?_, ?_, ?_, ?_⟩ <;> simp [flushBatch, SetSaveEnabled]

/-- C9: the retry loop of InsertUsageRecord sleeps (and thereby retries)
only after a busy/locked attempt, with backoff 50 * 2 ^ k milliseconds on
the k-th retry; it makes at most maxRetries = 5 attempts in total (at most
4 sleeps); it returns nil exactly when the first non-busy attempt
succeeds, and it returns the error of that attempt immediately — with no
further sleep — when the attempt fails with any non-lock error; the
after-loop failure value is unreachable. -/
theorem c9_insert_retry_policy (outcome : ℕ → ExecOutcome) :
    (InsertUsageRecordRun outcome).2.length + 1 ≤ maxRetries
    ∧ (∀ k, k < (InsertUsageRecordRun outcome).2.length → outcome k = .lockErr)
    ∧ (∀ k, k < (InsertUsageRecordRun outcome).2.length →
        (InsertUsageRecordRun outcome).2.get? k = some (50 * 2 ^ k))
    ∧ ((InsertUsageRecordRun outcome).1 = .ok ↔
        outcome (InsertUsageRecordRun outcome).2.length = .success)
    ∧ ((InsertUsageRecordRun outcome).1 = .errOther ↔
        outcome (InsertUsageRecordRun outcome).2.length = .otherErr)
    ∧ (InsertUsageRecordRun outcome).1 ≠ .errRetriesExhausted := by
  have h := insertLoop_spec outcome maxRetries 0 rfl (by norm_num [maxRetries])
  unfold InsertUsageRecordRun
  refine ⟨h.2.1, ?_, ?_, ?_, ?_, h.2.2.2.2⟩
  · intro k hk
    simpa using (h.1 k hk).1
  · intro k hk
    simpa using (h.1 k hk).2
  · simpa using h.2.2.1
  · simpa using h.2.2.2.1

/-- Exec outcomes: busy twice, then success. -/
def outcomeEx : ℕ → ExecOutcome := fun k => if k < 2 then .lockErr else .success

/-- C9 witness: with two busy attempts followed by success, the first
sleep follows a busy attempt, the second sleep is 100 ms, the run returns
nil, and the exhausted value is not produced. -/
theorem c9_insert_retry_policy_witness :
    outcomeEx 0 = ExecOutcome.lockErr
    ∧ (InsertUsageRecordRun outcomeEx).2.get? 1 = some (50 * 2 ^ 1)
    ∧ ((InsertUsageRecordRun outcomeEx).1 = InsertResult.ok ↔
        outcomeEx (InsertUsageRecordRun outcomeEx).2.length = ExecOutcome.success)
    ∧ (InsertUsageRecordRun outcomeEx).1 ≠ InsertResult.errRetriesExhausted :=
  ⟨(c9_insert_retry_policy outcomeEx).2.1 0 (by decide),
   (c9_insert_retry_policy outcomeEx).2.2.1 1 (by decide),
   (c9_insert_retry_policy outcomeEx).2.2.2.1,
   (c9_insert_retry_policy outcomeEx).2.2.2.2.2⟩

/-- C10: querying the daily summary of a date with no stored row returns
a zero-valued summary for that date with no error — the not-found case is
absorbed, not reported. -/
theorem c10_missing_summary_is_zero (t : SummaryTable) (date : String)
    (h : t date = none) :
    GetDailySummary t date =
      Except.ok { date := date, totalUpload := 0, totalDownload := 0 } := by
  simp [GetDailySummary, h]

/-- C10 witness: the empty table yields the zero summary without error. -/
theorem c10_missing_summary_is_zero_witness :
    GetDailySummary emptySummaries "2024-01-02" =
      Except.ok { date := "2024-01-02", totalUpload := 0, totalDownload := 0 } :=
  c10_missing_summary_is_zero emptySummaries "2024-01-02" rfl

end Netpus
